import Mathlib

/-!
Verification of the arc-metrics registration/export engine.

The development shallowly embeds `src/lib.rs` and `src/helpers.rs`:
atomic `u64` values become `Nat` with explicit reduction modulo `2 ^ 64`,
the registry's metric list becomes a `List RegisteredMetric`, and the
`Display` renderer becomes a pure function from the metric list (plus an
environment mapping value references to their loaded values) to a `String`.
Literal braces in strings are written with the escapes `\x7b` and `\x7d`.
-/

namespace ArcMetrics

/-- Modulus of the 64-bit unsigned arithmetic used by the atomic primitives. -/
def U64 : Nat := 2 ^ 64

namespace IntCounter

/-- Model of `IntCounter::owned_inc_by` (`fetch_add` with relaxed ordering):
wrapping addition modulo `2 ^ 64` on the stored value. -/
def owned_inc_by (v amount : Nat) : Nat := (v + amount) % U64

/-- Model of `IntCounter::shared_inc_by` (`fetch_add` with acquire-release
ordering): the same wrapping addition on the same stored value. -/
def shared_inc_by (v amount : Nat) : Nat := (v + amount) % U64

/-- Model of `IntCounter::owned_inc`: `owned_inc_by` with amount 1. -/
def owned_inc (v : Nat) : Nat := owned_inc_by v 1

/-- Model of `IntCounter::shared_inc`: `shared_inc_by` with amount 1. -/
def shared_inc (v : Nat) : Nat := shared_inc_by v 1

/-- Model of `IntCounter::inc`: delegates to `shared_inc`. -/
def inc (v : Nat) : Nat := shared_inc v

/-- Model of `IntCounter::inc_by`: delegates to `shared_inc_by`. -/
def inc_by (v amount : Nat) : Nat := shared_inc_by v amount

end IntCounter

namespace IntGauge

/-- Model of `IntGauge::set` (`store`): the stored value becomes the given
`u64` value. -/
def set (_v value : Nat) : Nat := value % U64

/-- Model of `IntGauge::owned_dec_by` (`fetch_sub` with relaxed ordering):
wrapping subtraction modulo `2 ^ 64`. -/
def owned_dec_by (v amount : Nat) : Nat := (v + (U64 - amount % U64)) % U64

/-- Model of `IntGauge::shared_dec_by` (`fetch_sub` with acquire-release
ordering): the same wrapping subtraction. -/
def shared_dec_by (v amount : Nat) : Nat := (v + (U64 - amount % U64)) % U64

/-- Model of `IntGauge::owned_dec`: `owned_dec_by` with amount 1. -/
def owned_dec (v : Nat) : Nat := owned_dec_by v 1

/-- Model of `IntGauge::shared_dec`: `shared_dec_by` with amount 1. -/
def shared_dec (v : Nat) : Nat := shared_dec_by v 1

/-- Model of `IntGauge::dec`: delegates to `shared_dec`. -/
def dec (v : Nat) : Nat := shared_dec v

/-- Model of `IntGauge::owned_inc_by` (`fetch_add` with relaxed ordering). -/
def owned_inc_by (v amount : Nat) : Nat := (v + amount) % U64

/-- Model of `IntGauge::shared_inc_by` (`fetch_add` with acquire-release
ordering). -/
def shared_inc_by (v amount : Nat) : Nat := (v + amount) % U64

/-- Model of `IntGauge::shared_inc`: `shared_inc_by` with amount 1. -/
def shared_inc (v : Nat) : Nat := shared_inc_by v 1

/-- Model of `IntGauge::inc`: delegates to `shared_inc`. -/
def inc (v : Nat) : Nat := shared_inc v

end IntGauge

namespace ActiveGauge

/-- Model of `ActiveGauge::new` (`helpers.rs`): on construction the chosen
gauge is incremented through `IntGauge::inc`, the shared-tier operation. -/
def new (v : Nat) : Nat := IntGauge.inc v

/-- Model of `Drop for ActiveGauge` (`helpers.rs`): on destruction the gauge
is decremented through `IntGauge::dec`, the shared-tier operation. -/
def drop (v : Nat) : Nat := IntGauge.dec v

end ActiveGauge

/-- Model of the `MetricType` enum. Its derived `Ord` instance orders
`IntCounter` before `IntGauge`. -/
inductive MetricType where
  | IntCounter
  | IntGauge
deriving DecidableEq

/-- Numeric code of a `MetricType`, mirroring the derived `Ord` on the Rust
enum (declaration order: `IntCounter < IntGauge`). -/
def mtCode : MetricType → Nat
  | MetricType.IntCounter => 0
  | MetricType.IntGauge => 1

/-- Model of `RegisteredMetric`. The `&'static AtomicU64` value reference is
modelled as an abstract reference identifier (`Nat`); the loaded value is
supplied at render time by an environment. -/
structure RegisteredMetric where
  metric_type : MetricType
  name : String
  value : Nat
  attributes : List (String × String)
deriving DecidableEq

/-- Model of `SortKey`, the key the registry list is sorted by. -/
structure SortKey where
  name : String
  metric : MetricType
deriving DecidableEq

/-- Strict lexicographic comparison of character lists by codepoint. Rust
compares `str` values bytewise; UTF-8 byte order agrees with codepoint
order, so this models the `Ord` on the `Cow<str>` names. -/
def charsLt : List Char → List Char → Bool
  | [], [] => false
  | [], _ :: _ => true
  | _ :: _, [] => false
  | a :: as, b :: bs =>
    if a.toNat < b.toNat then true
    else if b.toNat < a.toNat then false
    else charsLt as bs

/-- Strict lexicographic order on strings, over their character lists. -/
def strLt (a b : String) : Bool := charsLt a.data b.data

/-- The derived lexicographic `Ord` on `SortKey`: compare names first, then
the metric kind. -/
def sortKeyLE (a b : SortKey) : Bool :=
  strLt a.name b.name ||
    (decide (a.name = b.name) && decide (mtCode a.metric ≤ mtCode b.metric))

/-- The sort comparison on registered metrics, via their `SortKey`s as in
`sort_by_key` inside `Drop for RegisterHelper`. -/
def regLE (a b : RegisteredMetric) : Bool :=
  sortKeyLE { name := a.name, metric := a.metric_type }
    { name := b.name, metric := b.metric_type }

/-- Model of `RegisterAction`: the registration context. The shared
`&mut Vec<RegisteredMetric>` is not stored here; the metric list is threaded
explicitly through the operations that touch it. The `name_prefix` field is
called `namePfx` here. -/
structure RegisterAction where
  namePfx : Option String
  base_attributes : List (String × String)
deriving DecidableEq

/-- Model of `RegisterHelper`: the scope-bound declaration buffer. -/
structure RegisterHelper where
  namePfx : Option String
  attributes : List (String × String)
  registered : List RegisteredMetric
deriving DecidableEq

namespace RegisterAction

/-- Model of `RegisterAction::child`: clones the current name-prefix and
attribute state (the metric list stays shared by construction). -/
def child (c : RegisterAction) : RegisterAction :=
  { namePfx := c.namePfx, base_attributes := c.base_attributes }

/-- Model of `RegisterAction::name_prefix`: stores `some` of the given
segment into the `name_prefix` field. -/
def name_pfx (c : RegisterAction) (p : String) : RegisterAction :=
  { c with namePfx := some p }

/-- Model of `RegisterAction::base_attr`: pushes a key-value pair onto the
context's attribute list. -/
def base_attr (c : RegisterAction) (k v : String) : RegisterAction :=
  { c with base_attributes := c.base_attributes ++ [(k, v)] }

/-- Model of `RegisterAction::start`: opens a `RegisterHelper`, combining the
context's prefix with the optional extra group segment. -/
def start (c : RegisterAction) (seg : Option String) : RegisterHelper :=
  { namePfx :=
      match c.namePfx, seg with
      | some a, none => some a
      | none, some b => some b
      | some a, some b => some (a ++ "_" ++ b)
      | none, none => none,
    attributes := c.base_attributes,
    registered := [] }

/-- Model of `RegisterAction::group`: `start` with an extra segment. -/
def group (c : RegisterAction) (seg : String) : RegisterHelper :=
  start c (some seg)

/-- Model of `RegisterAction::empty`: `start` with no extra segment. -/
def empty (c : RegisterAction) : RegisterHelper :=
  start c none

end RegisterAction

namespace RegisterHelper

/-- Model of `RegisterHelper::attr`: pushes a key-value pair onto the
helper's own attribute list. -/
def attr (h : RegisterHelper) (k v : String) : RegisterHelper :=
  { h with attributes := h.attributes ++ [(k, v)] }

/-- Model of `RegisterHelper::metric`: appends a pending declaration whose
name is the helper prefix joined to the leaf name with an underscore, with an
empty attribute list. -/
def metric (h : RegisterHelper) (n : String) (value : Nat) (t : MetricType) :
    RegisterHelper :=
  { h with
    registered := h.registered ++
      [{ metric_type := t,
         name :=
           match h.namePfx with
           | some p => p ++ "_" ++ n
           | none => n,
         value := value,
         attributes := [] }] }

/-- Model of `RegisterHelper::count`: declares a counter. -/
def count (h : RegisterHelper) (n : String) (value : Nat) : RegisterHelper :=
  metric h n value MetricType.IntCounter

/-- Model of `RegisterHelper::gauge`: declares a gauge. -/
def gauge (h : RegisterHelper) (n : String) (value : Nat) : RegisterHelper :=
  metric h n value MetricType.IntGauge

/-- Model of `Drop for RegisterHelper`: every pending declaration receives
the helper's attribute list, is appended to the registry's metric list, and
the whole list is re-sorted (stably) by `SortKey`. -/
def drop (h : RegisterHelper) (metrics : List RegisteredMetric) :
    List RegisteredMetric :=
  List.mergeSort
    (metrics ++ h.registered.map (fun reg => { reg with attributes := h.attributes }))
    regLE

end RegisterHelper

/-- Model of `Display for MetricType`. -/
def mtDisplay : MetricType → String
  | MetricType.IntCounter => "counter"
  | MetricType.IntGauge => "gauge"

/-- One rendered attribute, `key="value"`, as written by the attribute loop
of `Display for PromMetricRegistry`. -/
def attrItem (kv : String × String) : String :=
  kv.1 ++ "=\"" ++ kv.2 ++ "\""

/-- Model of the indexed attribute loop of `Display for PromMetricRegistry`:
`e` is the length of the attribute list, `i` the current index. The first
attribute opens the brace (and closes it when it is also the last), the last
attribute closes the brace, the rest are comma-separated. -/
def attrChunks (e : Nat) : Nat → List (String × String) → String
  | _, [] => ""
  | i, kv :: rest =>
    (if i = 0 then
      "\x7b" ++ attrItem kv ++ (if e = 1 then "\x7d" else "")
    else if i + 1 = e then
      "," ++ attrItem kv ++ "\x7d"
    else
      "," ++ attrItem kv) ++ attrChunks e (i + 1) rest

/-- One metric sample line as written by `Display for PromMetricRegistry`:
the name, the attribute block, a space, the loaded value, and a newline.
`σ` maps value-reference identifiers to the values loaded at render time. -/
def metricLine (σ : Nat → Nat) (m : RegisteredMetric) : String :=
  m.name ++ attrChunks m.attributes.length 0 m.attributes ++ " " ++
    toString (σ m.value) ++ "\n"

/-- The two header lines (`# HELP`, `# TYPE`) written by
`Display for PromMetricRegistry` when the current metric does not match the
previous (name, kind). -/
def helpLines (m : RegisteredMetric) : String :=
  "# HELP " ++ m.name ++ "\n" ++ "# TYPE " ++ m.name ++ " " ++
    mtDisplay m.metric_type ++ "\n"

/-- The header-suppression test of `Display for PromMetricRegistry`: the
current metric matches the remembered (name, kind) of the previous one. -/
def hits (last : Option (String × MetricType)) (m : RegisteredMetric) : Bool :=
  match last with
  | some (n, t) => decide (n = m.name) && decide (t = m.metric_type)
  | none => false

/-- Model of the loop of `Display for PromMetricRegistry`: `last` carries the
(name, kind) of the last metric for which headers were emitted. -/
def renderFrom (σ : Nat → Nat) :
    Option (String × MetricType) → List RegisteredMetric → String
  | _, [] => ""
  | last, m :: rest =>
    (if hits last m then "" else helpLines m) ++ metricLine σ m ++
      renderFrom σ (if hits last m then last else some (m.name, m.metric_type)) rest

/-- Model of `Display for PromMetricRegistry`: render the metric list with no
previous (name, kind). -/
def render (σ : Nat → Nat) (metrics : List RegisteredMetric) : String :=
  renderFrom σ none metrics

/-- The operations callable on a live `RegisterHelper`: add an attribute, or
declare a counter/gauge (the declared value reference is its identifier). -/
inductive HelperOp where
  | attr (k v : String)
  | count (n : String) (value : Nat)
  | gauge (n : String) (value : Nat)

/-- Apply one `HelperOp` to a helper. -/
def applyOp (h : RegisterHelper) : HelperOp → RegisterHelper
  | HelperOp.attr k v => RegisterHelper.attr h k v
  | HelperOp.count n value => RegisterHelper.count h n value
  | HelperOp.gauge n value => RegisterHelper.gauge h n value

/-- Apply a sequence of `HelperOp`s, in order, to a helper. -/
def applyOps (h : RegisterHelper) (ops : List HelperOp) : RegisterHelper :=
  ops.foldl applyOp h

/-- Command language of a registration routine: set the name prefix, add a
base attribute, run a nested routine on a spawned child context, or open a
group helper (with optional extra segment), run its operations, and flush it
on scope exit. -/
inductive RegCmd where
  | namePfx (s : String)
  | baseAttr (k v : String)
  | child (sub : List RegCmd)
  | group (seg : Option String) (ops : List HelperOp)

/-- Interpreter for registration routines. The context travels by value, as
`RegisterAction` does; the registry's metric list is the threaded state,
mirroring the `&mut Vec<RegisteredMetric>` every context and helper borrows.
A `child` block runs on `RegisterAction::child` of the current context and
only its metric-list effects reach the sequel. -/
def runCmds : RegisterAction → List RegisteredMetric → List RegCmd →
    RegisterAction × List RegisteredMetric
  | c, ms, [] => (c, ms)
  | c, ms, RegCmd.namePfx s :: rest =>
    runCmds (RegisterAction.name_pfx c s) ms rest
  | c, ms, RegCmd.baseAttr k v :: rest =>
    runCmds (RegisterAction.base_attr c k v) ms rest
  | c, ms, RegCmd.child sub :: rest =>
    runCmds c (runCmds (RegisterAction.child c) ms sub).2 rest
  | c, ms, RegCmd.group seg ops :: rest =>
    runCmds c (RegisterHelper.drop (applyOps (RegisterAction.start c seg) ops) ms) rest

/-- A one-metric registry list used to instantiate the render-determinism
theorem. -/
def c10Ms : List RegisteredMetric :=
  [{ metric_type := MetricType.IntCounter, name := "m", value := 0, attributes := [] }]

/-- A first load environment for the render-determinism witness. -/
def c10Env1 : Nat → Nat := fun _ => 1

/-- A second load environment, agreeing with the first on reference 0, the
only reference `c10Ms` mentions. -/
def c10Env2 : Nat → Nat := fun k => if k = 0 then 1 else 2

/-- Concatenation of a list of strings. -/
def strConcat : List String → String
  | [] => ""
  | s :: rest => s ++ strConcat rest

/-- Modelled from the spec: the metric list split into its maximal contiguous
runs of entries with identical (name, kind). -/
def groupRuns : List RegisteredMetric → List (List RegisteredMetric)
  | [] => []
  | m :: rest =>
    match groupRuns rest with
    | [] => [[m]]
    | g :: gs =>
      match g with
      | [] => [m] :: gs
      | m2 :: _ =>
        if m.name = m2.name ∧ m.metric_type = m2.metric_type then (m :: g) :: gs
        else [m] :: g :: gs

/-- Modelled from the spec: the comma-joined attribute items, each of the
form key="value". -/
def specAttrList : List (String × String) → String
  | [] => ""
  | [kv] => attrItem kv
  | kv :: rest => attrItem kv ++ "," ++ specAttrList rest

/-- Modelled from the spec: the attribute block of a sample line — omitted
entirely (no braces) for an empty attribute list, otherwise the comma-joined
quoted items between braces adjacent to the name and the final pair. -/
def specAttrBlock (attrs : List (String × String)) : String :=
  if attrs = [] then "" else "\x7b" ++ specAttrList attrs ++ "\x7d"

/-- Modelled from the spec: the kind name on the TYPE line, `counter` or
`gauge`. -/
def specKindName : MetricType → String
  | MetricType.IntCounter => "counter"
  | MetricType.IntGauge => "gauge"

/-- Modelled from the spec: one sample line,
name\x7bk1="v1",k2="v2",...\x7d value. -/
def specMetricLine (σ : Nat → Nat) (m : RegisteredMetric) : String :=
  m.name ++ specAttrBlock m.attributes ++ " " ++ toString (σ m.value) ++ "\n"

/-- Modelled from the spec: a maximal run of identical (name, kind) entries
renders as exactly one `# HELP name` line and one `# TYPE name kind` line,
followed by one sample line per entry. -/
def specRunRender (σ : Nat → Nat) : List RegisteredMetric → String
  | [] => ""
  | m :: rest =>
    "# HELP " ++ m.name ++ "\n" ++ "# TYPE " ++ m.name ++ " " ++
      specKindName m.metric_type ++ "\n" ++
      strConcat ((m :: rest).map (specMetricLine σ))

/-- Modelled from the spec: rendering is the concatenation of the rendered
maximal runs; an empty metric list renders to empty output. -/
def renderSpec (σ : Nat → Nat) (metrics : List RegisteredMetric) : String :=
  strConcat ((groupRuns metrics).map (specRunRender σ))

/-- Rendering of one run with the code renderer's own line formatting; used
to bridge the code renderer to the run-structured spec renderer. -/
def runCodeRender (σ : Nat → Nat) : List RegisteredMetric → String
  | [] => ""
  | m :: rest => helpLines m ++ strConcat ((m :: rest).map (metricLine σ))

/-- Run-structured rendering relative to a remembered (name, kind): when it
matches the head of the first run, that run's header lines are suppressed. -/
def renderRunsCont (σ : Nat → Nat) :
    Option (String × MetricType) → List (List RegisteredMetric) → String
  | _, [] => ""
  | none, gs => strConcat (gs.map (runCodeRender σ))
  | some (n, t), g :: gs =>
    match g with
    | [] => strConcat ((g :: gs).map (runCodeRender σ))
    | m :: _ =>
      if n = m.name ∧ t = m.metric_type then
        strConcat (g.map (metricLine σ)) ++ strConcat (gs.map (runCodeRender σ))
      else
        strConcat ((g :: gs).map (runCodeRender σ))

/-- The registry-seeded context of the worked example of the spec: one base
attribute, no name prefix yet. -/
def c5Seed : RegisterAction :=
  { namePfx := none, base_attributes := [(("prefix"), ("set"))] }

/-- The example context after setting the name prefix to `base_prefix`. -/
def c5Action : RegisterAction := RegisterAction.name_pfx c5Seed ("base_prefix")

/-- The example helper after opening the group with extra segment `prefix`,
declaring counters `a` (reference 0) and `b` (reference 1), then adding the
attribute `test="2"` after the declarations. -/
def c5Helper : RegisterHelper :=
  RegisterHelper.attr
    (RegisterHelper.count
      (RegisterHelper.count (RegisterAction.group c5Action ("prefix")) ("a") 0)
      ("b") 1)
    ("test") ("2")

/-- The example registry metric list after the helper flush. -/
def c5Metrics : List RegisteredMetric := RegisterHelper.drop c5Helper []

end ArcMetrics

namespace ArcMetrics

/-- Claim C1: the claim as stated is false on the code. A registration
context whose name-prefix field already holds the segment `p` and which is
handed the new segment `q` through `RegisterAction::name_prefix` ends up
with `q` alone, not the concatenation `p_q`: the field is overwritten, and a
group helper subsequently opened from the context carries `q` as its whole
effective prefix. -/
theorem c1_counterexample :
    (RegisterAction.name_pfx
        { namePfx := some ("p"), base_attributes := [] } ("q")).namePfx = some ("q") ∧
    (RegisterAction.empty (RegisterAction.name_pfx
        { namePfx := some ("p"), base_attributes := [] } ("q"))).namePfx ≠ some ("p_q") := by
  exact ⟨rfl, by decide⟩

/-- Claim C1 (amended): calling the prefix-setting operation
(`RegisterAction::name_prefix`) with a new segment `q` replaces any existing
prefix: the context's prefix, and the effective prefix of a group helper then
opened from it without an extra segment, is `q` alone. (Concatenation only
happens between the context prefix and the extra group segment inside
`RegisterAction::start`.) -/
theorem c1_name_prefix_replaces (c : RegisterAction) (q : String) :
    (RegisterAction.name_pfx c q).namePfx = some q ∧
    (RegisterAction.empty (RegisterAction.name_pfx c q)).namePfx = some q := by
  exact ⟨rfl, rfl⟩

/-- Claim C7: the claim as stated is false on the code. Counter increments
wrap modulo `2 ^ 64`, so incrementing a counter that holds `2 ^ 64 - 1`
yields `0`, which is strictly below the previous value. -/
theorem c7_counterexample :
    IntCounter.owned_inc (U64 - 1) = 0 ∧
    ¬ (U64 - 1 ≤ IntCounter.owned_inc (U64 - 1)) := by
  exact ⟨by decide, by decide⟩

/-- Claim C7 (amended): every exposed counter operation is an increment
computed modulo `2 ^ 64` (none decrements or arbitrarily sets the value), so
as long as the increment does not overflow 64 bits the stored value is
monotonically non-decreasing under all six exposed operations. -/
theorem c7_counter_monotone (v n : Nat) (hn : v + n < U64) (h1 : v + 1 < U64) :
    v ≤ IntCounter.owned_inc_by v n ∧ v ≤ IntCounter.shared_inc_by v n ∧
    v ≤ IntCounter.inc_by v n ∧ v ≤ IntCounter.owned_inc v ∧
    v ≤ IntCounter.shared_inc v ∧ v ≤ IntCounter.inc v := by
  have e1 : (v + n) % U64 = v + n := Nat.mod_eq_of_lt hn
  have e2 : (v + 1) % U64 = v + 1 := Nat.mod_eq_of_lt h1
  simp only [IntCounter.owned_inc_by, IntCounter.shared_inc_by, IntCounter.inc_by,
    IntCounter.inc, IntCounter.owned_inc, IntCounter.shared_inc, e1, e2]
  omega

/-- Witness for the amended claim C7 at `v = 3`, `n = 2`. -/
theorem c7_witness :
    3 + 2 < U64 ∧ 3 + 1 < U64 ∧
    (3 ≤ IntCounter.owned_inc_by 3 2 ∧ 3 ≤ IntCounter.shared_inc_by 3 2 ∧
     3 ≤ IntCounter.inc_by 3 2 ∧ 3 ≤ IntCounter.owned_inc 3 ∧
     3 ≤ IntCounter.shared_inc 3 ∧ 3 ≤ IntCounter.inc 3) :=
  ⟨by decide, by decide, c7_counter_monotone 3 2 (by decide) (by decide)⟩

/-- Claim C8: an active-operation gauge scope increments the gauge by
exactly 1 on construction through the shared-tier operation, decrements it
by exactly 1 on destruction through the shared-tier operation, and the net
effect of one construct-then-drop pair is the identity on the gauge value. -/
theorem c8_active_gauge_net_zero (v : Nat) (h : v < U64) :
    ActiveGauge.new v = IntGauge.shared_inc_by v 1 ∧
    ActiveGauge.drop (ActiveGauge.new v) = IntGauge.shared_dec_by (ActiveGauge.new v) 1 ∧
    ActiveGauge.drop (ActiveGauge.new v) = v := by
  have hU : 1 < U64 := by decide
  refine ⟨rfl, rfl, ?_⟩
  simp only [ActiveGauge.new, ActiveGauge.drop, IntGauge.inc, IntGauge.dec,
    IntGauge.shared_inc, IntGauge.shared_dec, IntGauge.shared_inc_by,
    IntGauge.shared_dec_by, Nat.mod_eq_of_lt hU]
  rcases Nat.lt_or_ge (v + 1) U64 with hlt | hge
  · rw [Nat.mod_eq_of_lt hlt]
    have e : v + 1 + (U64 - 1) = v + U64 := by omega
    rw [e, Nat.add_mod_right, Nat.mod_eq_of_lt h]
  · have e : v + 1 = U64 := by omega
    rw [e, Nat.mod_self, Nat.zero_add, Nat.mod_eq_of_lt (by omega)]
    omega

/-- Witness for claim C8 at `v = 5`. -/
theorem c8_witness :
    5 < U64 ∧
    (ActiveGauge.new 5 = IntGauge.shared_inc_by 5 1 ∧
     ActiveGauge.drop (ActiveGauge.new 5) = IntGauge.shared_dec_by (ActiveGauge.new 5) 1 ∧
     ActiveGauge.drop (ActiveGauge.new 5) = 5) :=
  ⟨by decide, c8_active_gauge_net_zero 5 (by decide)⟩

/-- Claim C9: all counter and gauge arithmetic wraps modulo `2 ^ 64`, in both
the owned and the shared tier: increment-by `n` yields `(v + n) mod 2 ^ 64`,
decrement-by `n` yields `(v - n) mod 2 ^ 64` (stated over `ℤ`), and in
particular decrementing a gauge holding `0` yields `2 ^ 64 - 1`. -/
theorem c9_wrapping_mod_2_64 (v n : Nat) (hv : v < U64) (hn : n < U64) :
    IntCounter.owned_inc_by v n = (v + n) % U64 ∧
    IntCounter.shared_inc_by v n = (v + n) % U64 ∧
    IntGauge.owned_inc_by v n = (v + n) % U64 ∧
    IntGauge.shared_inc_by v n = (v + n) % U64 ∧
    ((IntGauge.owned_dec_by v n : Int) = ((v : Int) - (n : Int)) % (U64 : Int)) ∧
    ((IntGauge.shared_dec_by v n : Int) = ((v : Int) - (n : Int)) % (U64 : Int)) ∧
    IntGauge.shared_dec 0 = U64 - 1 := by
  have hnle : n ≤ U64 := Nat.le_of_lt hn
  refine ⟨rfl, rfl, rfl, rfl, ?_, ?_, by decide⟩
  all_goals
    simp only [IntGauge.owned_dec_by, IntGauge.shared_dec_by, Nat.mod_eq_of_lt hn]
    push_cast [hnle]
    rw [show (v : Int) + ((U64 : Int) - (n : Int)) = ((v : Int) - (n : Int)) + (U64 : Int) * 1
        from by ring, Int.add_mul_emod_self_left]

/-- Witness for claim C9 at `v = 1`, `n = 3` (a decrement that wraps). -/
theorem c9_witness :
    1 < U64 ∧ 3 < U64 ∧
    (IntCounter.owned_inc_by 1 3 = (1 + 3) % U64 ∧
     IntCounter.shared_inc_by 1 3 = (1 + 3) % U64 ∧
     IntGauge.owned_inc_by 1 3 = (1 + 3) % U64 ∧
     IntGauge.shared_inc_by 1 3 = (1 + 3) % U64 ∧
     ((IntGauge.owned_dec_by 1 3 : Int) = ((1 : Int) - (3 : Int)) % (U64 : Int)) ∧
     ((IntGauge.shared_dec_by 1 3 : Int) = ((1 : Int) - (3 : Int)) % (U64 : Int)) ∧
     IntGauge.shared_dec 0 = U64 - 1) :=
  ⟨by decide, by decide, c9_wrapping_mod_2_64 1 3 (by decide) (by decide)⟩

end ArcMetrics

namespace ArcMetrics

/-- Transitivity of the strict character-list comparison. -/
theorem charsLt_trans : ∀ as bs cs : List Char,
    charsLt as bs = true → charsLt bs cs = true → charsLt as cs = true := by
  intro as
  induction as with
  | nil =>
    intro bs cs hab hbc
    cases bs with
    | nil => simp [charsLt] at hab
    | cons b bs2 =>
      cases cs with
      | nil => simp [charsLt] at hbc
      | cons c cs2 => simp [charsLt]
  | cons a as2 ih =>
    intro bs cs hab hbc
    cases bs with
    | nil => simp [charsLt] at hab
    | cons b bs2 =>
      cases cs with
      | nil => simp [charsLt] at hbc
      | cons c cs2 =>
        rcases Nat.lt_trichotomy a.toNat b.toNat with h1 | h1 | h1
        · rcases Nat.lt_trichotomy b.toNat c.toNat with h2 | h2 | h2
          · simp only [charsLt]
            rw [if_pos (by omega)]
          · simp only [charsLt]
            rw [if_pos (by omega)]
          · exfalso
            simp only [charsLt] at hbc
            rw [if_neg (by omega), if_pos (by omega)] at hbc
            exact absurd hbc (by simp)
        · rcases Nat.lt_trichotomy b.toNat c.toNat with h2 | h2 | h2
          · simp only [charsLt]
            rw [if_pos (by omega)]
          · simp only [charsLt] at hab hbc ⊢
            rw [if_neg (by omega), if_neg (by omega)] at hab
            rw [if_neg (by omega), if_neg (by omega)] at hbc
            rw [if_neg (by omega), if_neg (by omega)]
            exact ih bs2 cs2 hab hbc
          · exfalso
            simp only [charsLt] at hbc
            rw [if_neg (by omega), if_pos (by omega)] at hbc
            exact absurd hbc (by simp)
        · exfalso
          simp only [charsLt] at hab
          rw [if_neg (by omega), if_pos (by omega)] at hab
          exact absurd hab (by simp)

/-- Two character lists neither of which is strictly below the other are
equal. -/
theorem charsLt_connex : ∀ as bs : List Char,
    charsLt as bs = false → charsLt bs as = false → as = bs := by
  intro as
  induction as with
  | nil =>
    intro bs h1 _
    cases bs with
    | nil => rfl
    | cons b bs2 => simp [charsLt] at h1
  | cons a as2 ih =>
    intro bs h1 h2
    cases bs with
    | nil => simp [charsLt] at h2
    | cons b bs2 =>
      rcases Nat.lt_trichotomy a.toNat b.toNat with hc | hc | hc
      · exfalso
        simp only [charsLt] at h1
        rw [if_pos hc] at h1
        exact absurd h1 (by simp)
      · have hab : a = b := Char.ext (UInt32.toNat.inj hc)
        simp only [charsLt] at h1 h2
        rw [if_neg (by omega), if_neg (by omega)] at h1
        rw [if_neg (by omega), if_neg (by omega)] at h2
        rw [hab, ih bs2 h1 h2]
      · exfalso
        simp only [charsLt] at h2
        rw [if_pos hc] at h2
        exact absurd h2 (by simp)

/-- Transitivity of the flush sort comparison. -/
theorem regLE_trans (a b c : RegisteredMetric) (hab : regLE a b) (hbc : regLE b c) :
    regLE a c := by
  simp only [regLE, sortKeyLE, Bool.or_eq_true, Bool.and_eq_true,
    decide_eq_true_eq] at *
  rcases hab with h1 | ⟨e1, m1⟩ <;> rcases hbc with h2 | ⟨e2, m2⟩
  · exact Or.inl (charsLt_trans _ _ _ h1 h2)
  · exact Or.inl (by rw [strLt, ← e2]; exact h1)
  · exact Or.inl (by rw [strLt, e1]; exact h2)
  · exact Or.inr ⟨e1.trans e2, le_trans m1 m2⟩

/-- Totality of the flush sort comparison. -/
theorem regLE_total (a b : RegisteredMetric) : regLE a b || regLE b a := by
  simp only [regLE, sortKeyLE, Bool.or_eq_true, Bool.and_eq_true,
    decide_eq_true_eq]
  by_cases h1 : strLt a.name b.name = true
  · exact Or.inl (Or.inl h1)
  · by_cases h2 : strLt b.name a.name = true
    · exact Or.inr (Or.inl h2)
    · have he : a.name = b.name :=
        String.ext (charsLt_connex a.name.data b.name.data
          (Bool.not_eq_true _ ▸ h1) (Bool.not_eq_true _ ▸ h2))
      rcases Nat.le_total (mtCode a.metric_type) (mtCode b.metric_type) with hm | hm
      · exact Or.inl (Or.inr ⟨he, hm⟩)
      · exact Or.inr (Or.inr ⟨he.symm, hm⟩)

/-- Claim C2: after every group-helper flush (`Drop for RegisterHelper`) the
registry's metric list consists exactly of the previous list plus all pending
declarations of that helper (stamped with the helper's attributes), and the
whole list is sorted by the (name, kind) sort key: every adjacent pair is
ordered by `regLE`. The helper and the pre-flush list are universally
quantified, so this holds after every registration, for any sequence of group
openings and declarations. -/
theorem c2_flush_sorted (h : RegisterHelper) (ms : List RegisteredMetric) :
    (RegisterHelper.drop h ms).Pairwise (fun a b => regLE a b) ∧
    (RegisterHelper.drop h ms).Perm
      (ms ++ h.registered.map (fun reg => { reg with attributes := h.attributes })) := by
  constructor
  · exact List.sorted_mergeSort (fun a b c => regLE_trans a b c)
      (fun a b => regLE_total a b) _
  · exact List.mergeSort_perm _ _

/-- Pending declarations keep an empty attribute list under any sequence of
helper operations, provided they all had empty attribute lists to begin with. -/
theorem applyOps_pending_empty (ops : List HelperOp) :
    ∀ h : RegisterHelper, (∀ m ∈ h.registered, m.attributes = []) →
      ∀ m ∈ (applyOps h ops).registered, m.attributes = [] := by
  induction ops with
  | nil => exact fun h hh => hh
  | cons op rest ih =>
    intro h hh
    refine ih (applyOp h op) ?_
    cases op with
    | attr k v => exact hh
    | count n value =>
      intro m hm
      simp only [applyOp, RegisterHelper.count, RegisterHelper.metric,
        List.mem_append, List.mem_singleton] at hm
      rcases hm with hm | hm
      · exact hh m hm
      · rw [hm]
    | gauge n value =>
      intro m hm
      simp only [applyOp, RegisterHelper.gauge, RegisterHelper.metric,
        List.mem_append, List.mem_singleton] at hm
      rcases hm with hm | hm
      · exact hh m hm
      · rw [hm]

/-- Claim C4: for every group helper freshly opened from a context and every
interleaving of declare and add-attribute operations on it, every pending
declaration carries an empty attribute list until the flush; at the flush
every declared metric lands in the registry list stamped with the helper's
complete final attribute set, and everything in the post-flush list is either
an old entry or such a stamped declaration. -/
theorem c4_attributes_stamped_at_flush (c : RegisterAction) (seg : Option String)
    (ops : List HelperOp) (ms : List RegisteredMetric) :
    (∀ m ∈ (applyOps (RegisterAction.start c seg) ops).registered, m.attributes = []) ∧
    (∀ r ∈ (applyOps (RegisterAction.start c seg) ops).registered,
      ({ r with attributes := (applyOps (RegisterAction.start c seg) ops).attributes }
          : RegisteredMetric) ∈
        RegisterHelper.drop (applyOps (RegisterAction.start c seg) ops) ms) ∧
    (∀ m ∈ RegisterHelper.drop (applyOps (RegisterAction.start c seg) ops) ms,
      m ∈ ms ∨ ∃ r ∈ (applyOps (RegisterAction.start c seg) ops).registered,
        m = { r with attributes := (applyOps (RegisterAction.start c seg) ops).attributes }) := by
  refine ⟨?_, ?_, ?_⟩
  · refine applyOps_pending_empty ops (RegisterAction.start c seg) ?_
    intro m hm
    simp only [RegisterAction.start] at hm
    cases hm
  · intro r hr
    refine (List.mergeSort_perm _ _).mem_iff.mpr ?_
    refine List.mem_append.mpr (Or.inr ?_)
    exact List.mem_map.mpr ⟨r, hr, rfl⟩
  · intro m hm
    have hm2 := (List.mergeSort_perm _ _).mem_iff.mp hm
    rcases List.mem_append.mp hm2 with hl | hr
    · exact Or.inl hl
    · rcases List.mem_map.mp hr with ⟨r, hr2, he⟩
      exact Or.inr ⟨r, hr2, he.symm⟩

/-- The context component of `runCmds` does not depend on the metric list. -/
theorem runCmds_fst_const (cmds : List RegCmd) :
    ∀ (c : RegisterAction) (ms ms' : List RegisteredMetric),
      (runCmds c ms cmds).1 = (runCmds c ms' cmds).1 := by
  induction cmds with
  | nil => intro c ms ms'; simp only [runCmds]
  | cons cmd rest ih =>
    intro c ms ms'
    cases cmd with
    | namePfx s => simp only [runCmds]; exact ih _ _ _
    | baseAttr k v => simp only [runCmds]; exact ih _ _ _
    | child sub => simp only [runCmds]; exact ih _ _ _
    | group seg ops => simp only [runCmds]; exact ih _ _ _

/-- Claim C6: a spawned child context starts as a copy of the parent's
prefix+attribute state; a nested routine run on the child — any sequence of
prefix, attribute, child, and group commands — leaves the parent context's
prefix and attribute list exactly as they would be without the child block,
while the metric-list effects of the child block flow into the same shared
registry list that the sequel continues from. -/
theorem c6_child_frame (c : RegisterAction) (ms : List RegisteredMetric)
    (sub rest : List RegCmd) :
    RegisterAction.child c = c ∧
    (runCmds c ms (RegCmd.child sub :: rest)).1 = (runCmds c ms rest).1 ∧
    (runCmds c ms (RegCmd.child sub :: rest)).2 =
      (runCmds c (runCmds (RegisterAction.child c) ms sub).2 rest).2 := by
  refine ⟨rfl, ?_, ?_⟩
  · simp only [runCmds]
    exact runCmds_fst_const rest c _ ms
  · simp only [runCmds]

/-- Rendering depends on the load environment only through the values of the
references the metric list mentions. -/
theorem renderFrom_env_congr (σ₁ σ₂ : Nat → Nat) :
    ∀ (ms : List RegisteredMetric) (last : Option (String × MetricType)),
      (∀ m ∈ ms, σ₁ m.value = σ₂ m.value) →
      renderFrom σ₁ last ms = renderFrom σ₂ last ms := by
  intro ms
  induction ms with
  | nil => intro last _; rfl
  | cons m rest ih =>
    intro last hagree
    have hm : σ₁ m.value = σ₂ m.value := hagree m (by simp)
    have h1 : metricLine σ₁ m = metricLine σ₂ m := by simp [metricLine, hm]
    simp only [renderFrom]
    rw [h1, ih _ (fun x hx => hagree x (List.mem_cons_of_mem m hx))]

/-- Claim C10: rendering is modelled as a pure function of the registry's
metric list and of the loaded values — it cannot modify the list, attribute
lists, or names — and any two renders performed while every registered value
reference loads the same value produce character-for-character identical
output. -/
theorem c10_render_deterministic (ms : List RegisteredMetric) (σ₁ σ₂ : Nat → Nat)
    (hagree : ∀ m ∈ ms, σ₁ m.value = σ₂ m.value) :
    render σ₁ ms = render σ₂ ms :=
  renderFrom_env_congr σ₁ σ₂ ms none hagree

/-- Witness for claim C10: two concrete environments agreeing on the one
reference of a one-metric list render identically. -/
theorem c10_witness :
    (∀ m ∈ c10Ms, c10Env1 m.value = c10Env2 m.value) ∧
    render c10Env1 c10Ms = render c10Env2 c10Ms := by
  have hagree : ∀ m ∈ c10Ms, c10Env1 m.value = c10Env2 m.value := by
    intro m hm
    simp only [c10Ms, List.mem_singleton] at hm
    rw [hm]
    rfl
  exact ⟨hagree, c10_render_deterministic c10Ms c10Env1 c10Env2 hagree⟩

end ArcMetrics


namespace ArcMetrics

/-- Single-step unfolding of the attribute loop at a cons cell. -/
theorem attrChunks_cons_eq (e i : Nat) (kv : String × String)
    (rest : List (String × String)) :
    attrChunks e i (kv :: rest) =
      (if i = 0 then
        "\x7b" ++ attrItem kv ++ (if e = 1 then "\x7d" else "")
      else if i + 1 = e then
        "," ++ attrItem kv ++ "\x7d"
      else
        "," ++ attrItem kv) ++ attrChunks e (i + 1) rest := rfl

/-- The tail of the code's attribute loop (indices from 1 on) emits the
comma-joined remaining items and the closing brace. -/
theorem attrChunks_tail (rest : List (String × String)) :
    ∀ i : Nat, 1 ≤ i → rest ≠ [] →
      attrChunks (i + rest.length) i rest = "," ++ specAttrList rest ++ "\x7d" := by
  induction rest with
  | nil => intro i _ hne; exact absurd rfl hne
  | cons kv rest ih =>
    intro i hi _
    rw [attrChunks_cons_eq]
    cases rest with
    | nil =>
      rw [if_neg (by omega), if_pos (by simp)]
      simp [attrChunks, specAttrList, String.append_assoc]
    | cons kv2 rest2 =>
      rw [if_neg (by omega), if_neg (by simp only [List.length_cons]; omega)]
      have he : i + (kv :: kv2 :: rest2).length = (i + 1) + (kv2 :: rest2).length := by
        simp only [List.length_cons]; omega
      rw [he, ih (i + 1) (by omega) (by simp)]
      simp [specAttrList, String.append_assoc]

/-- The code's attribute loop writes exactly the spec's attribute block: no
braces at all for an empty list, otherwise braces around the comma-joined
quoted items. -/
theorem attrChunks_eq_specAttrBlock (attrs : List (String × String)) :
    attrChunks attrs.length 0 attrs = specAttrBlock attrs := by
  cases attrs with
  | nil => rfl
  | cons kv rest =>
    rw [attrChunks_cons_eq, if_pos rfl]
    simp only [Nat.zero_add]
    cases rest with
    | nil =>
      rw [if_pos (by simp)]
      simp [attrChunks, specAttrBlock, specAttrList, String.append_assoc]
    | cons kv2 rest2 =>
      rw [if_neg (by simp only [List.length_cons]; omega)]
      have he : (kv :: kv2 :: rest2).length = 1 + (kv2 :: rest2).length := by
        simp only [List.length_cons]; omega
      rw [he, attrChunks_tail (kv2 :: rest2) 1 (by omega) (by simp)]
      simp [specAttrBlock, specAttrList, String.append_assoc]

/-- The code's sample line equals the spec's sample line. -/
theorem metricLine_eq_spec (σ : Nat → Nat) (m : RegisteredMetric) :
    metricLine σ m = specMetricLine σ m := by
  simp only [metricLine, specMetricLine, attrChunks_eq_specAttrBlock]

/-- The code's per-run output (headers then sample lines) equals the spec's
per-run output. -/
theorem runCodeRender_eq_spec (σ : Nat → Nat) (g : List RegisteredMetric) :
    runCodeRender σ g = specRunRender σ g := by
  cases g with
  | nil => rfl
  | cons m rest =>
    have hk : mtDisplay m.metric_type = specKindName m.metric_type := by
      cases m.metric_type <;> rfl
    have hl : metricLine σ = specMetricLine σ := funext (metricLine_eq_spec σ)
    simp only [runCodeRender, specRunRender, helpLines, hk, hl, String.append_assoc]

/-- Unfolding equation of `groupRuns` at a cons cell. -/
theorem groupRuns_cons_eq (m : RegisteredMetric) (rest : List RegisteredMetric) :
    groupRuns (m :: rest) =
      match groupRuns rest with
      | [] => [[m]]
      | g :: gs =>
        match g with
        | [] => [m] :: gs
        | m2 :: _ =>
          if m.name = m2.name ∧ m.metric_type = m2.metric_type then (m :: g) :: gs
          else [m] :: g :: gs := rfl

/-- The first maximal run of a non-empty metric list starts with the list's
head. -/
theorem groupRuns_cons (m : RegisteredMetric) (rest : List RegisteredMetric) :
    ∃ tl gs, groupRuns (m :: rest) = (m :: tl) :: gs := by
  cases hgr : groupRuns rest with
  | nil => exact ⟨[], [], by rw [groupRuns_cons_eq, hgr]⟩
  | cons g gs =>
    cases g with
    | nil => exact ⟨[], gs, by rw [groupRuns_cons_eq, hgr]⟩
    | cons m2 tl2 =>
      by_cases hc : m.name = m2.name ∧ m.metric_type = m2.metric_type
      · exact ⟨m2 :: tl2, gs, by rw [groupRuns_cons_eq, hgr]; exact if_pos hc⟩
      · exact ⟨[], (m2 :: tl2) :: gs, by rw [groupRuns_cons_eq, hgr]; exact if_neg hc⟩

/-- Run formation at a cons cell whose tail's first run is known. -/
theorem groupRuns_cons_cons (m m2 : RegisteredMetric) (rest2 : List RegisteredMetric)
    (tl : List RegisteredMetric) (gs : List (List RegisteredMetric))
    (hgr : groupRuns (m2 :: rest2) = (m2 :: tl) :: gs) :
    groupRuns (m :: m2 :: rest2) =
      if m.name = m2.name ∧ m.metric_type = m2.metric_type
      then (m :: m2 :: tl) :: gs else [m] :: (m2 :: tl) :: gs := by
  rw [groupRuns_cons_eq m (m2 :: rest2), hgr]

/-- Empty run list renders as the empty string for any remembered key. -/
theorem renderRunsCont_nil (σ : Nat → Nat) (k : Option (String × MetricType)) :
    renderRunsCont σ k [] = "" := by
  rcases k with _ | ⟨n, t⟩ <;> rfl

/-- With no remembered key, every run renders with its headers. -/
theorem renderRunsCont_none (σ : Nat → Nat) (gs : List (List RegisteredMetric)) :
    renderRunsCont σ none gs = strConcat (gs.map (runCodeRender σ)) := by
  cases gs <;> rfl

/-- Unfolding equation of `renderRunsCont` for a remembered key and an
explicit first run. -/
theorem renderRunsCont_some_cons (σ : Nat → Nat) (n : String) (t : MetricType)
    (m : RegisteredMetric) (tl : List RegisteredMetric)
    (gs : List (List RegisteredMetric)) :
    renderRunsCont σ (some (n, t)) ((m :: tl) :: gs) =
      if n = m.name ∧ t = m.metric_type then
        strConcat ((m :: tl).map (metricLine σ)) ++ strConcat (gs.map (runCodeRender σ))
      else strConcat (((m :: tl) :: gs).map (runCodeRender σ)) := rfl

/-- The code's rendering loop computes the run-structured rendering: the
remembered (name, kind) suppresses the headers of exactly the first run when
it matches that run's head. -/
theorem renderFrom_eq_renderRunsCont (σ : Nat → Nat) :
    ∀ (ms : List RegisteredMetric) (last : Option (String × MetricType)),
      renderFrom σ last ms = renderRunsCont σ last (groupRuns ms) := by
  intro ms
  induction ms with
  | nil => intro last; rcases last with _ | ⟨n, t⟩ <;> rfl
  | cons m rest ih =>
    intro last
    have hcont : (if hits last m then last else some (m.name, m.metric_type)) =
        some (m.name, m.metric_type) := by
      by_cases hh : hits last m = true
      · rw [if_pos hh]
        rcases last with _ | ⟨n, t⟩
        · simp [hits] at hh
        · simp only [hits, Bool.and_eq_true, decide_eq_true_eq] at hh
          rw [hh.1, hh.2]
      · rw [if_neg hh]
    simp only [renderFrom]
    rw [hcont, ih (some (m.name, m.metric_type))]
    cases rest with
    | nil =>
      rw [show groupRuns ([] : List RegisteredMetric) = [] from rfl, renderRunsCont_nil,
        show groupRuns [m] = [[m]] from rfl]
      rcases last with _ | ⟨n, t⟩
      · rw [renderRunsCont_none]
        simp [hits, runCodeRender, strConcat, String.append_assoc]
      · rw [renderRunsCont_some_cons]
        by_cases hd : n = m.name ∧ t = m.metric_type
        · have hh : hits (some (n, t)) m = true := by simp [hits, hd.1, hd.2]
          rw [if_pos hd]
          simp [hh, strConcat, String.append_assoc]
        · have hh : hits (some (n, t)) m = false := by
            simp only [hits, Bool.and_eq_true, decide_eq_true_eq]
            simpa using hd
          rw [if_neg hd]
          simp [hh, runCodeRender, strConcat, String.append_assoc]
    | cons m2 rest2 =>
      obtain ⟨tl, gs, hgr⟩ := groupRuns_cons m2 rest2
      rw [hgr, groupRuns_cons_cons m m2 rest2 tl gs hgr, renderRunsCont_some_cons]
      by_cases hc : m.name = m2.name ∧ m.metric_type = m2.metric_type
      · rw [if_pos hc, if_pos hc]
        rcases last with _ | ⟨n, t⟩
        · rw [renderRunsCont_none]
          simp [hits, runCodeRender, strConcat, String.append_assoc]
        · rw [renderRunsCont_some_cons]
          by_cases hd : n = m.name ∧ t = m.metric_type
          · have hh : hits (some (n, t)) m = true := by simp [hits, hd.1, hd.2]
            rw [if_pos hd]
            simp [hh, strConcat, String.append_assoc]
          · have hh : hits (some (n, t)) m = false := by
              simp only [hits, Bool.and_eq_true, decide_eq_true_eq]
              simpa using hd
            rw [if_neg hd]
            simp [hh, runCodeRender, strConcat, String.append_assoc]
      · rw [if_neg hc, if_neg hc]
        rcases last with _ | ⟨n, t⟩
        · rw [renderRunsCont_none]
          simp [hits, runCodeRender, strConcat, String.append_assoc]
        · rw [renderRunsCont_some_cons]
          by_cases hd : n = m.name ∧ t = m.metric_type
          · have hh : hits (some (n, t)) m = true := by simp [hits, hd.1, hd.2]
            rw [if_pos hd]
            simp [hh, runCodeRender, strConcat, String.append_assoc]
          · have hh : hits (some (n, t)) m = false := by
              simp only [hits, Bool.and_eq_true, decide_eq_true_eq]
              simpa using hd
            rw [if_neg hd]
            simp [hh, runCodeRender, strConcat, String.append_assoc]

/-- Claim C3: the code renderer (`Display for PromMetricRegistry`) emits, for
each maximal contiguous run of entries with identical (name, kind), exactly
one HELP line and one TYPE line naming `counter`/`gauge`, followed by one
sample line per entry with the comma-joined quoted attribute block, and no
braces at all for an entry without attributes; an empty metric list renders
to empty output. Stated as a refinement: the code renderer equals the
spec-modelled run-structured renderer on every metric list. -/
theorem c3_render_refines_spec (σ : Nat → Nat) (metrics : List RegisteredMetric) :
    render σ metrics = renderSpec σ metrics ∧ render σ [] = "" := by
  constructor
  · rw [render, renderFrom_eq_renderRunsCont σ metrics none, renderRunsCont_none]
    have h2 : runCodeRender σ = specRunRender σ := funext (runCodeRender_eq_spec σ)
    rw [renderSpec, h2]
  · rfl

set_option maxRecDepth 8192 in
/-- Claim C5: the worked example — context prefix `base_prefix`, group opened
with extra segment `prefix`, counters `a` and `b` declared before the
attribute `test="2"` is added, under the base attribute `prefix="set"` —
renders with names joined by underscores in context-group-leaf order, the
base attribute before the group's own attribute, and both counters carrying
the attribute that was added after their declarations. -/
theorem c5_worked_example :
    render (fun r => r + 3) c5Metrics =
      "# HELP base_prefix_prefix_a\n# TYPE base_prefix_prefix_a counter\n" ++
      "base_prefix_prefix_a\x7bprefix=\"set\",test=\"2\"\x7d 3\n" ++
      "# HELP base_prefix_prefix_b\n# TYPE base_prefix_prefix_b counter\n" ++
      "base_prefix_prefix_b\x7bprefix=\"set\",test=\"2\"\x7d 4\n" := by
  have hpair : List.Pairwise (fun a b => regLE a b = true)
      ([] ++ c5Helper.registered.map
        (fun reg => { reg with attributes := c5Helper.attributes })) := by
    decide
  have h : c5Metrics = [] ++ c5Helper.registered.map
      (fun reg => { reg with attributes := c5Helper.attributes }) := by
    unfold c5Metrics RegisterHelper.drop
    exact List.mergeSort_of_sorted hpair
  rw [h]
  decide

end ArcMetrics
